import Mathlib

/-! Verification of the goBox namespace/backend-delegation engine.

This file gives a shallow embedding of the in-memory filesystem engine of
src/fuse/memfs.go (node table, path algebra, backend resolver, namespace
operations) together with the HTTP error translation of the API server, and
proves or refutes the specified properties of those functions.

Paths are modelled as lists of characters (Go strings are byte strings; every
string operation the engine uses — TrimSuffix, LastIndex, HasPrefix,
TrimPrefix, concatenation — is implemented verbatim on character lists).
The node table is an association list from path to node, mirroring the Go
map; insertion removes any previous binding of the key, so keys stay
duplicate-free. -/

namespace GoBox

/-- Absolute namespace paths, as raw character sequences (Go strings). -/
abbrev Path := List Char

/-- The root path. -/
def rootP : Path := ['/']

/-- Go strings.TrimSuffix(path, sep): removes one trailing separator,
if present (TrimSuffix removes at most one occurrence of the suffix). -/
def trimSlash (p : Path) : Path :=
  if p.getLast? = some '/' then p.dropLast else p

/-- Go strings.LastIndex(path, sep): index of the last separator, if any. -/
def lastIdx : Path → Option Nat
  | [] => none
  | c :: t =>
    match lastIdx t with
    | some i => some (i + 1)
    | none => if c = '/' then some 0 else none

/-- The engine's split (memfs.go): parent directory and base name.
Returns the pair the Go function returns: for i = -1 the pair
(empty, trimmed path), for i = 0 the pair (root, rest), otherwise the
path up to (excluding) the last separator and the trailing segment. -/
def splitGo (p : Path) : Path × Path :=
  let q := trimSlash p
  match lastIdx q with
  | none => ([], q)
  | some i => if i = 0 then (rootP, q.drop 1) else (q.take i, q.drop (i + 1))

/-- The call-site pattern around split: parent, with the empty parent
replaced by the root path. -/
def parentFix (p : Path) : Path :=
  if (splitGo p).1 = [] then rootP else (splitGo p).1

/-- HTTP status mapping of the engine's error codes (fuseErrorToHTTP in the
API server source): 0 to 200, -ENOENT to 404, -EACCES to 403, -EEXIST to
409, -EISDIR and -ENOTDIR to 400, anything else to 500. -/
def fuseErrorToHTTP (e : Int) : Nat :=
  if e = 0 then 200
  else if e = -2 then 404
  else if e = -13 then 403
  else if e = -17 then 409
  else if e = -21 then 400
  else if e = -20 then 400
  else 500

/- ### Path algebra lemmas -/

theorem lastIdx_append_some (a r : Path) (j : Nat) (h : lastIdx r = some j) :
    lastIdx (a ++ r) = some (a.length + j) := by
  induction a with
  | nil => simpa using h
  | cons c t ih =>
    show (match lastIdx (t ++ r) with
      | some i => some (i + 1)
      | none => if c = '/' then some 0 else none) = some ((c :: t).length + j)
    rw [ih]
    simp only [List.length_cons, Option.some.injEq]
    omega

theorem lastIdx_eq_none (b : Path) (h : ('/' : Char) ∉ b) : lastIdx b = none := by
  induction b with
  | nil => rfl
  | cons c t ih =>
    simp only [List.mem_cons, not_or] at h
    show (match lastIdx t with
      | some i => some (i + 1)
      | none => if c = '/' then some 0 else none) = none
    rw [ih h.2]
    exact if_neg (fun hc => h.1 hc.symm)

theorem getLast?_no_slash (b : Path) (h : ('/' : Char) ∉ b) :
    b.getLast? ≠ some '/' := by
  intro hc
  obtain ⟨hne, heq⟩ := List.mem_getLast?_eq_getLast (Option.mem_def.mpr hc)
  exact h (heq ▸ List.getLast_mem hne)

theorem trimSlash_of_no_trail (p : Path) (h : p.getLast? ≠ some '/') :
    trimSlash p = p := by
  simp [trimSlash, h]

theorem getLast?_slash_cons (b : Path) (hb : b ≠ []) :
    List.getLast? ('/' :: b) = List.getLast? b := by
  cases b with
  | nil => exact absurd rfl hb
  | cons x t => exact List.getLast?_cons_cons

theorem splitGo_concat (a b : Path) (ha : a ≠ []) (hb : b ≠ [])
    (hbs : ('/' : Char) ∉ b) : splitGo (a ++ '/' :: b) = (a, b) := by
  have htrim : trimSlash (a ++ '/' :: b) = a ++ '/' :: b := by
    apply trimSlash_of_no_trail
    rw [List.getLast?_append_cons, getLast?_slash_cons b hb]
    exact getLast?_no_slash b hbs
  have hidx : lastIdx (a ++ '/' :: b) = some a.length := by
    have h0 : lastIdx ('/' :: b) = some 0 := by
      show (match lastIdx b with
        | some i => some (i + 1)
        | none => if '/' = '/' then some 0 else none) = some 0
      rw [lastIdx_eq_none b hbs]
      simp
    simpa using lastIdx_append_some a ('/' :: b) 0 h0
  have halen : a.length ≠ 0 := by simpa using ha
  have htake : (a ++ '/' :: b).take a.length = a := List.take_left a ('/' :: b)
  have hdrop : (a ++ '/' :: b).drop (a.length + 1) = b := by
    rw [show a ++ '/' :: b = (a ++ ['/']) ++ b by simp,
      show a.length + 1 = (a ++ ['/']).length by simp]
    exact List.drop_left (a ++ ['/']) b
  simp only [splitGo, htrim, hidx, if_neg halen, htake, hdrop]

theorem splitGo_single (b : Path) (hb : b ≠ []) (hbs : ('/' : Char) ∉ b) :
    splitGo ('/' :: b) = (rootP, b) := by
  have htrim : trimSlash ('/' :: b) = '/' :: b := by
    apply trimSlash_of_no_trail
    rw [getLast?_slash_cons b hb]
    exact getLast?_no_slash b hbs
  have hidx : lastIdx ('/' :: b) = some 0 := by
    show (match lastIdx b with
      | some i => some (i + 1)
      | none => if '/' = '/' then some 0 else none) = some 0
    rw [lastIdx_eq_none b hbs]
    simp
  simp [splitGo, htrim, hidx]

theorem splitGo_root : splitGo rootP = ([], []) := by decide

theorem splitGo_one_trail (p : Path) (h : p.getLast? ≠ some '/') :
    splitGo (p ++ ['/']) = splitGo p := by
  have htrim : trimSlash (p ++ ['/']) = p := by
    simp [trimSlash, List.getLast?_concat]
  rw [splitGo, splitGo, htrim, trimSlash_of_no_trail p h]

/- ### Data model (memfs.go) -/

/-- File-type bit masks (fuse constants). -/
def S_IFMT : Nat := 0xF000

def S_IFDIR : Nat := 0x4000

def S_IFREG : Nat := 0x8000

/-- Error code magnitudes (fuse constants; engine results are their
negations). The I/O error constant carries a suffixed name. -/
def ENOENT : Int := 2

def EEXIST : Int := 17

def ENOTDIR : Int := 20

def EISDIR : Int := 21

def ENOTEMPTY : Int := 39

def EIOERR : Int := 5

/-- The used fields of fuse.Stat_t. Go stores Nlink, Uid, Gid in uint32 and
Size in int64 and the engine only ever writes them (no operation branches on
them), and the proved statements concern link counts far below 2^32, so they
are modelled as unbounded naturals; timestamps are abstract instants. -/
structure Stat where
  mode : Nat
  nlink : Nat
  uid : Nat := 0
  gid : Nat := 0
  size : Nat := 0
  atim : Nat := 0
  mtim : Nat := 0
  ctim : Nat := 0
  deriving DecidableEq

/-- A namespace node: metadata, inline content, and an optional backend
binding (backend identity plus mount-relative path). Identities stand for
the distinct LocalBackend pointers Go compares with interface equality. -/
structure Node where
  stat : Stat
  data : List Nat := []
  backend : Option Nat := none
  backendPath : Path := []
  deriving DecidableEq

/-- The filesystem: the node table (Go map modelled as an association list
with duplicate-free keys) and the source of fresh backend identities. -/
structure MemFS where
  nodes : List (Path × Node)
  nextB : Nat := 0
  deriving DecidableEq

/-- Go map lookup. -/
def lookupN : List (Path × Node) → Path → Option Node
  | [], _ => none
  | e :: t, p => if e.1 = p then some e.2 else lookupN t p

/-- Go map delete. -/
def eraseN (ns : List (Path × Node)) (p : Path) : List (Path × Node) :=
  ns.filter (fun e => ¬ e.1 = p)

/-- Go map assignment (replacing any previous binding). -/
def insertN (ns : List (Path × Node)) (p : Path) (n : Node) : List (Path × Node) :=
  (p, n) :: eraseN ns p

/-- Directory test used everywhere in the engine: mode AND S_IFDIR. -/
def isDirB (m : Nat) : Bool := m &&& S_IFDIR != 0

/-- NewMemFS: a fresh filesystem holding only the root directory. -/
def memInit (now : Nat) : MemFS :=
  { nodes := [(rootP,
      { stat := { mode := S_IFDIR ||| 0o755, nlink := 2,
                  atim := now, mtim := now, ctim := now } })],
    nextB := 0 }

/-- Go strings.TrimPrefix. -/
def dropPre (p pre : Path) : Path :=
  if pre.isPrefixOf p then p.drop pre.length else p

/-- The relative path computed by resolveBackend: the suffix of the path
beyond the matched mount, with the empty suffix replaced by the root. -/
def relOf (path cur : Path) : Path :=
  if dropPre path cur = [] then rootP else dropPre path cur

/-- The ancestor walk of resolveBackend, driven by fuel. -/
def resolveAux (ns : List (Path × Node)) (path : Path) : Nat → Path → Option (Nat × Path)
  | 0, _ => none
  | fuel + 1, cur =>
    match lookupN ns cur with
    | some n =>
      match n.backend with
      | some b => some (b, relOf path cur)
      | none => if cur = rootP then none else resolveAux ns path fuel (parentFix cur)
    | none => if cur = rootP then none else resolveAux ns path fuel (parentFix cur)

/-- resolveBackend: starting at the path itself, walk ancestors until a
node with a backend binding is found; none once the root has been tested.
The Go loop always terminates within length + 2 iterations (every step
either shortens the candidate or reaches the root), so the fuel below is
never exhausted and the definition equals the loop. -/
def resolveBackend (fs : MemFS) (path : Path) : Option (Nat × Path) :=
  resolveAux fs.nodes path (path.length + 3) path

/- ### Engine operations.

Backend-delegated calls perform external I/O; each operation takes the
reply the backend would return as an explicit argument (bReply), so that
theorems quantify over every possible backend behavior. Operations that
stamp times take the current instant (now) as an argument, standing for
fuse.Now(). -/

/-- Getattr. The backend reply is the pair a backend Stat call would
return (error code and metadata); the result is the error code and the
metadata written through the out-parameter, if any. -/
def Getattr (fs : MemFS) (path : Path) (bReply : Int × Stat) : Int × Option Stat :=
  match lookupN fs.nodes path with
  | none =>
    match resolveBackend fs path with
    | some _ => if bReply.1 = 0 then (0, some bReply.2) else (bReply.1, none)
    | none => (-ENOENT, none)
  | some n =>
    match n.backend with
    | some _ => if bReply.1 = 0 then (0, some bReply.2) else (bReply.1, none)
    | none => (0, some n.stat)

/-- A freshly created in-memory regular-file node (Mknod and Create). -/
def fileNode (mode now : Nat) : Node :=
  { stat := { mode := S_IFREG ||| mode, nlink := 1,
              atim := now, mtim := now, ctim := now },
    data := [] }

/-- Mkdir. -/
def Mkdir (fs : MemFS) (path : Path) (mode : Nat) (now : Nat) (bReply : Int) :
    Int × MemFS :=
  match lookupN fs.nodes path with
  | some _ => (-EEXIST, fs)
  | none =>
    match lookupN fs.nodes (parentFix path) with
    | none =>
      match resolveBackend fs (parentFix path) with
      | some _ => (bReply, fs)
      | none => (-ENOENT, fs)
    | some pn =>
      if isDirB pn.stat.mode = false then (-ENOTDIR, fs)
      else
        match pn.backend with
        | some _ => (bReply, fs)
        | none =>
          let child : Node :=
            { stat := { mode := S_IFDIR ||| mode, nlink := 2,
                        atim := now, mtim := now, ctim := now } }
          let pn1 : Node :=
            { pn with stat := { pn.stat with nlink := pn.stat.nlink + 1 } }
          (0, { fs with nodes := insertN (insertN fs.nodes path child) (parentFix path) pn1 })

/-- The parent link-count decrement of Rmdir, guarded by parent presence. -/
def decNlink (ns : List (Path × Node)) (parent : Path) : List (Path × Node) :=
  match lookupN ns parent with
  | some pn => insertN ns parent
      { pn with stat := { pn.stat with nlink := pn.stat.nlink - 1 } }
  | none => ns

/-- Rmdir. -/
def Rmdir (fs : MemFS) (path : Path) (bReply : Int) : Int × MemFS :=
  if path = rootP then (-ENOENT, fs)
  else
    match lookupN fs.nodes path with
    | none =>
      match resolveBackend fs path with
      | some _ => (bReply, fs)
      | none => (-ENOENT, fs)
    | some n =>
      if isDirB n.stat.mode = false then (-ENOTDIR, fs)
      else
        match n.backend with
        | some _ =>
          if bReply ≠ 0 then (bReply, fs)
          else (0, { fs with nodes := eraseN (decNlink fs.nodes (parentFix path)) path })
        | none =>
          if fs.nodes.any (fun e => (path ++ ['/']).isPrefixOf e.1 && e.1 ≠ path) then
            (-ENOTEMPTY, fs)
          else (0, { fs with nodes := eraseN (decNlink fs.nodes (parentFix path)) path })

/-- Mknod. Note two asymmetries with Mkdir that the source exhibits: the
parent lookup uses the raw split result (no empty-parent fixup) and there
is no backend consultation or delegation at all. -/
def Mknod (fs : MemFS) (path : Path) (mode : Nat) (now : Nat) : Int × MemFS :=
  match lookupN fs.nodes path with
  | some _ => (-EEXIST, fs)
  | none =>
    match lookupN fs.nodes (splitGo path).1 with
    | none => (-ENOENT, fs)
    | some _ => (0, { fs with nodes := insertN fs.nodes path (fileNode mode now) })

/-- Unlink. -/
def Unlink (fs : MemFS) (path : Path) (bReply : Int) : Int × MemFS :=
  match lookupN fs.nodes path with
  | none =>
    match resolveBackend fs path with
    | some _ => (bReply, fs)
    | none => (-ENOENT, fs)
  | some n =>
    if isDirB n.stat.mode then (-EISDIR, fs)
    else
      match n.backend with
      | some _ =>
        if bReply ≠ 0 then (bReply, fs)
        else (0, { fs with nodes := eraseN fs.nodes path })
      | none => (0, { fs with nodes := eraseN fs.nodes path })

/-- The subtree rewrite at the end of an in-memory directory rename: every
key carrying the old prefix is deleted and re-inserted under the new
prefix. Go iterates the live map while mutating it; whenever no rewritten
key itself carries the old prefix (every rename of non-nested paths) the
loop computes exactly this snapshot fold, which is the canonical resolution
of the otherwise unspecified iteration order. -/
def moveSubtree (ns : List (Path × Node)) (oldPre newPre : Path) : List (Path × Node) :=
  (ns.filter (fun e => oldPre.isPrefixOf e.1)).foldl
    (fun acc e => insertN acc (newPre ++ e.1.drop oldPre.length) e.2)
    (ns.filter (fun e => ¬ oldPre.isPrefixOf e.1))

/-- One backend Rename invocation: the backend identity and the two path
arguments handed to it. -/
structure RenCall where
  backend : Nat
  oldArg : Path
  newArg : Path
  deriving DecidableEq

/-- Rename. The third component records the backend Rename calls made. -/
def Rename (fs : MemFS) (oldpath newpath : Path) (bReply : Int) :
    Int × MemFS × List RenCall :=
  match lookupN fs.nodes oldpath with
  | none =>
    match resolveBackend fs oldpath with
    | none => (-ENOENT, fs, [])
    | some (b, rel) =>
      match resolveBackend fs newpath with
      | none => (-EIOERR, fs, [])
      | some (b2, rel2) =>
        if b ≠ b2 then (-EIOERR, fs, [])
        else (bReply, fs, [⟨b, rel, rel2⟩])
  | some n =>
    match lookupN fs.nodes (parentFix newpath) with
    | none => (-ENOENT, fs, [])
    | some _ =>
      match n.backend with
      | some nb =>
        if bReply ≠ 0 then (bReply, fs, [⟨nb, n.backendPath, newpath⟩])
        else (0, { fs with nodes := insertN (eraseN fs.nodes oldpath) newpath n },
          [⟨nb, n.backendPath, newpath⟩])
      | none =>
        let ns2 := insertN (eraseN (eraseN fs.nodes newpath) oldpath) newpath n
        let ns3 := if isDirB n.stat.mode then
            moveSubtree ns2 (oldpath ++ ['/']) (newpath ++ ['/'])
          else ns2
        (0, { fs with nodes := ns3 }, [])

/-- Read. The backend reply is the pair a backend Read returns (bytes read,
error). The result is the Go return value together with the bytes the
in-memory branch copies into the buffer. -/
def Read (fs : MemFS) (path : Path) (bufLen : Nat) (ofst : Nat)
    (bReply : Int × Int) : Int × List Nat :=
  match lookupN fs.nodes path with
  | none =>
    match resolveBackend fs path with
    | some _ => if bReply.2 ≠ 0 then (bReply.2, []) else (bReply.1, [])
    | none => (-ENOENT, [])
  | some n =>
    if isDirB n.stat.mode then (-EISDIR, [])
    else
      match n.backend with
      | some _ => if bReply.2 ≠ 0 then (bReply.2, []) else (bReply.1, [])
      | none =>
        if n.data.length ≤ ofst then (0, [])
        else
          ((((n.data.drop ofst).take (min (ofst + bufLen) n.data.length - ofst)).length : Int),
            (n.data.drop ofst).take (min (ofst + bufLen) n.data.length - ofst))

/-- Write. Offsets are the non-negative values the driver contract
supplies (a negative int64 offset would make the Go code panic rather than
return). -/
def Write (fs : MemFS) (path : Path) (buff : List Nat) (ofst : Nat) (now : Nat)
    (bReply : Int × Int) : Int × MemFS :=
  match lookupN fs.nodes path with
  | none =>
    match resolveBackend fs path with
    | some _ => if bReply.2 ≠ 0 then (bReply.2, fs) else (bReply.1, fs)
    | none => (-ENOENT, fs)
  | some n =>
    if isDirB n.stat.mode then (-EISDIR, fs)
    else
      match n.backend with
      | some _ => if bReply.2 ≠ 0 then (bReply.2, fs) else (bReply.1, fs)
      | none =>
        let finish := ofst + buff.length
        let d0 := if n.data.length < finish then
            n.data ++ List.replicate (finish - n.data.length) 0
          else n.data
        let d1 := d0.take ofst ++ buff ++ d0.drop finish
        let n1 : Node :=
          { n with data := d1, stat := { n.stat with size := d1.length, mtim := now } }
        ((buff.length : Int), { fs with nodes := insertN fs.nodes path n1 })

/-- Truncate. -/
def Truncate (fs : MemFS) (path : Path) (size : Nat) (now : Nat) (bReply : Int) :
    Int × MemFS :=
  match lookupN fs.nodes path with
  | none =>
    match resolveBackend fs path with
    | some _ => if bReply ≠ 0 then (bReply, fs) else (0, fs)
    | none => (-ENOENT, fs)
  | some n =>
    if isDirB n.stat.mode then (-EISDIR, fs)
    else
      match n.backend with
      | some _ => if bReply ≠ 0 then (bReply, fs) else (0, fs)
      | none =>
        let d1 := if size < n.data.length then n.data.take size
          else if n.data.length < size then
            n.data ++ List.replicate (size - n.data.length) 0
          else n.data
        let n1 : Node :=
          { n with data := d1, stat := { n.stat with size := size, mtim := now } }
        (0, { fs with nodes := insertN fs.nodes path n1 })

/-- Chmod: type bits preserved, permission bits replaced. Note there is no
backend consultation on a node-table miss. -/
def Chmod (fs : MemFS) (path : Path) (mode : Nat) (now : Nat) : Int × MemFS :=
  match lookupN fs.nodes path with
  | none => (-ENOENT, fs)
  | some n =>
    let n1 : Node := { n with stat := { n.stat with
      mode := (n.stat.mode &&& S_IFMT) ||| mode, ctim := now } }
    (0, { fs with nodes := insertN fs.nodes path n1 })

/-- Chown: the all-ones uint32 is the unchanged sentinel. No backend
consultation on a miss. -/
def Chown (fs : MemFS) (path : Path) (uid gid : Nat) (now : Nat) : Int × MemFS :=
  match lookupN fs.nodes path with
  | none => (-ENOENT, fs)
  | some n =>
    let n1 : Node := { n with stat := { n.stat with
      uid := if uid ≠ 4294967295 then uid else n.stat.uid,
      gid := if gid ≠ 4294967295 then gid else n.stat.gid,
      ctim := now } }
    (0, { fs with nodes := insertN fs.nodes path n1 })

/-- Utimens: nil timestamps mean now/now. No backend consultation on a
miss. -/
def Utimens (fs : MemFS) (path : Path) (tmsp : Option (Nat × Nat)) (now : Nat) :
    Int × MemFS :=
  match lookupN fs.nodes path with
  | none => (-ENOENT, fs)
  | some n =>
    let n1 : Node := { n with stat := { n.stat with
      atim := (match tmsp with | none => (now, now) | some t => t).1,
      mtim := (match tmsp with | none => (now, now) | some t => t).2 } }
    (0, { fs with nodes := insertN fs.nodes path n1 })

/-- Create. The handle the Go function additionally returns is always 0 and
is omitted. The third component records the backend Create calls made, as
backend identity plus relative path. Note: no target-existence check — an
existing in-memory node at the path is overwritten (the source tests pin
this: creating an existing file succeeds). -/
def Create (fs : MemFS) (path : Path) (mode : Nat) (now : Nat) (bReply : Int) :
    Int × MemFS × List (Nat × Path) :=
  match lookupN fs.nodes (parentFix path) with
  | none =>
    match resolveBackend fs path with
    | some (b, rel) =>
      if bReply ≠ 0 then (bReply, fs, [(b, rel)]) else (0, fs, [(b, rel)])
    | none => (-ENOENT, fs, [])
  | some pn =>
    match pn.backend with
    | some b =>
      if bReply ≠ 0 then (bReply, fs, [(b, '/' :: (splitGo path).2)])
      else (0, fs, [(b, '/' :: (splitGo path).2)])
    | none => (0, { fs with nodes := insertN fs.nodes path (fileNode mode now) }, [])

/-- LinkLocal: bind a fresh backend at a mount path. The host target root
only parameterizes the new LocalBackend, which the model abstracts as a
fresh identity. -/
def LinkLocal (fs : MemFS) (mountPath : Path) (now : Nat) : Int × MemFS :=
  match lookupN fs.nodes mountPath with
  | some _ => (-EEXIST, fs)
  | none =>
    match lookupN fs.nodes (parentFix mountPath) with
    | none => (-ENOENT, fs)
    | some pn =>
      if isDirB pn.stat.mode = false then (-ENOTDIR, fs)
      else
        let mnode : Node :=
          { stat := { mode := S_IFDIR ||| 0o755, nlink := 2,
                      atim := now, mtim := now, ctim := now },
            backend := some fs.nextB, backendPath := rootP }
        let pn1 : Node :=
          { pn with stat := { pn.stat with nlink := pn.stat.nlink + 1 } }
        let ns2 := insertN (insertN fs.nodes mountPath mnode) (parentFix mountPath) pn1
        (0, { nodes := ns2, nextB := fs.nextB + 1 })

/- ### Node table lemmas -/

theorem lookupN_eraseN (ns : List (Path × Node)) (p q : Path) :
    lookupN (eraseN ns p) q = if q = p then none else lookupN ns q := by
  induction ns with
  | nil => simp [eraseN, lookupN]
  | cons e t ih =>
    simp only [eraseN, List.filter_cons] at ih ⊢
    by_cases hep : e.1 = p
    · have hc1 : (decide ¬ e.1 = p) = false := by simp [hep]
      simp only [hc1, Bool.false_eq_true, if_false]
      rw [ih]
      by_cases hqp : q = p
      · simp [hqp]
      · simp only [if_neg hqp]
        have heq : ¬ e.1 = q := by rw [hep]; exact fun hc => hqp hc.symm
        simp [lookupN, heq]
    · have hc1 : (decide ¬ e.1 = p) = true := by simp [hep]
      simp only [hc1, if_true]
      by_cases heq : e.1 = q
      · have hqp : ¬ q = p := fun hc => hep (by rw [heq, hc])
        simp [lookupN, heq, hqp]
      · simp only [lookupN, heq, if_false, if_neg heq]
        rw [ih]

theorem lookupN_insertN (ns : List (Path × Node)) (p q : Path) (n : Node) :
    lookupN (insertN ns p n) q = if p = q then some n else lookupN ns q := by
  simp only [insertN, lookupN]
  rw [lookupN_eraseN]
  by_cases h : p = q
  · simp [h]
  · simp [h, show ¬ q = p from fun hc => h hc.symm]

theorem lookupN_insert_self (ns : List (Path × Node)) (p : Path) (n : Node) :
    lookupN (insertN ns p n) p = some n := by
  simp [lookupN_insertN]

/- ### Claim theorems: C8 and C9 -/

/-- Claim C8, as stated, is false: split normalizes away only ONE trailing
separator, so a path with two trailing separators does not split like the
same path without them. Concretely split of the four characters /, a, /, /
yields the pair (the two characters /, a — the parent, paired with an empty
base), while split of /, a yields (the root, base a). -/
theorem c8_counterexample :
    splitGo ['/', 'a', '/', '/'] ≠ splitGo ['/', 'a'] ∧
      splitGo ['/', 'a', '/', '/'] = (['/', 'a'], []) := by decide

/-- Claim C8 (amended): split behaves as specified on the root path, on
single-segment absolute paths, and on longer paths, and exactly ONE trailing
separator (not all of them) is normalized away before splitting: for any
path not already ending in a separator, appending one separator does not
change the result of split. -/
theorem c8_split_spec :
    splitGo rootP = ([], []) ∧
      (∀ b : Path, b ≠ [] → ('/' : Char) ∉ b → splitGo ('/' :: b) = (rootP, b)) ∧
      (∀ a b : Path, a ≠ [] → b ≠ [] → ('/' : Char) ∉ b →
        splitGo (a ++ '/' :: b) = (a, b)) ∧
      (∀ p : Path, p.getLast? ≠ some '/' → splitGo (p ++ ['/']) = splitGo p) :=
  ⟨splitGo_root, splitGo_single, splitGo_concat, splitGo_one_trail⟩

/-- Witness for the amended split claim at concrete inputs. -/
theorem c8_split_spec_witness :
    splitGo ['/', 'a'] = (rootP, ['a']) ∧
      splitGo ['/', 'a', '/', 'b', 'c'] = (['/', 'a'], ['b', 'c']) ∧
      splitGo ['/', 'a', '/', 'b', 'c', '/'] = splitGo ['/', 'a', '/', 'b', 'c'] :=
  ⟨c8_split_spec.2.1 ['a'] (by decide) (by decide),
    by
      have h := c8_split_spec.2.2.1 ['/', 'a'] ['b', 'c'] (by decide) (by decide) (by decide)
      simpa using h,
    c8_split_spec.2.2.2 ['/', 'a', '/', 'b', 'c'] (by decide)⟩

/-- Claim C9: the HTTP translation maps each engine error code by the fixed
table: -2 (not found) to 404, -13 (permission) to 403, -17 (exists) to 409,
-21 (is a directory) and -20 (not a directory) to 400, 0 to 200, and every
other failure code to 500. -/
theorem c9_http_table (e : Int) :
    (e = -2 → fuseErrorToHTTP e = 404) ∧
      (e = -13 → fuseErrorToHTTP e = 403) ∧
      (e = -17 → fuseErrorToHTTP e = 409) ∧
      (e = -21 → fuseErrorToHTTP e = 400) ∧
      (e = -20 → fuseErrorToHTTP e = 400) ∧
      (e = 0 → fuseErrorToHTTP e = 200) ∧
      (e ≠ 0 → e ≠ -2 → e ≠ -13 → e ≠ -17 → e ≠ -21 → e ≠ -20 →
        fuseErrorToHTTP e = 500) := by
  unfold fuseErrorToHTTP
  refine ⟨?_, ?_, ?_, ?_, ?_, ?_, ?_⟩ <;> intros <;> subst_eqs <;> simp_all

/-- Witness for the HTTP table claim at concrete error codes. -/
theorem c9_http_table_witness :
    fuseErrorToHTTP (-2) = 404 ∧ fuseErrorToHTTP (-5) = 500 :=
  ⟨(c9_http_table (-2)).1 rfl,
    (c9_http_table (-5)).2.2.2.2.2.2 (by decide) (by decide) (by decide)
      (by decide) (by decide) (by decide)⟩

/- ### Bit lemmas for the directory test -/

theorem isDirB_iff (m : Nat) : isDirB m = m.testBit 14 := by
  have h : m &&& S_IFDIR = (m.testBit 14).toNat * 2 ^ 14 := by
    have h14 : S_IFDIR = 2 ^ 14 := by norm_num [S_IFDIR]
    rw [h14, Nat.and_two_pow]
  rw [isDirB, h]
  cases m.testBit 14 <;> simp

theorem isDirB_or (a b : Nat) : isDirB (a ||| b) = (isDirB a || isDirB b) := by
  simp [isDirB_iff, Nat.testBit_lor]

theorem isDirB_mask (m : Nat) : isDirB (m &&& S_IFMT) = isDirB m := by
  simp only [isDirB_iff, Nat.testBit_land]
  rw [show Nat.testBit S_IFMT 14 = true from by decide, Bool.and_true]

/-- Chmod preserves the directory bit of the old mode and adds whatever the
caller passes. -/
theorem isDirB_chmod (m k : Nat) :
    isDirB ((m &&& S_IFMT) ||| k) = (isDirB m || isDirB k) := by
  rw [isDirB_or, isDirB_mask]

theorem isDirB_mkdir (mode : Nat) : isDirB (S_IFDIR ||| mode) = true := by
  rw [isDirB_or]
  rw [show isDirB S_IFDIR = true from by decide]
  simp

/-- The keys of the table are duplicate-free (Go map keys). -/
def NodupKeys (ns : List (Path × Node)) : Prop := (ns.map Prod.fst).Nodup

theorem nodupKeys_eraseN (ns : List (Path × Node)) (p : Path) (h : NodupKeys ns) :
    NodupKeys (eraseN ns p) :=
  h.sublist ((List.filter_sublist ns).map Prod.fst)

theorem not_mem_keys_eraseN (ns : List (Path × Node)) (p : Path) :
    p ∉ (eraseN ns p).map Prod.fst := by
  intro hmem
  obtain ⟨e, he, heq⟩ := List.mem_map.mp hmem
  have hf := (List.mem_filter.mp he).2
  simp [heq] at hf

theorem nodupKeys_insertN (ns : List (Path × Node)) (p : Path) (n : Node)
    (h : NodupKeys ns) : NodupKeys (insertN ns p n) :=
  List.nodup_cons.mpr ⟨not_mem_keys_eraseN ns p, nodupKeys_eraseN ns p h⟩

theorem lookupN_filter_of_keep (ns : List (Path × Node)) (f : Path × Node → Bool)
    (q : Path) (h : ∀ e : Path × Node, e.1 = q → f e = true) :
    lookupN (ns.filter f) q = lookupN ns q := by
  induction ns with
  | nil => rfl
  | cons e t ih =>
    by_cases heq : e.1 = q
    · rw [List.filter_cons, h e heq]
      simp [lookupN, heq]
    · rw [List.filter_cons]
      cases hf : f e
      · simpa [lookupN, heq] using ih
      · simp [lookupN, heq, ih]

theorem countP_eq_one_of_lookup (ns : List (Path × Node)) (q : Path) (m : Node)
    (hn : NodupKeys ns) (hl : lookupN ns q = some m) :
    ns.countP (fun e => e.1 = q) = 1 := by
  induction ns with
  | nil => simp [lookupN] at hl
  | cons e t ih =>
    have hn2 := List.nodup_cons.mp hn
    by_cases heq : e.1 = q
    · have hzero : t.countP (fun e => decide (e.1 = q)) = 0 := by
        rw [List.countP_eq_zero]
        intro a ha
        simp only [decide_eq_true_eq]
        intro hc
        exact hn2.1 (heq ▸ hc ▸ List.mem_map_of_mem Prod.fst ha)
      rw [List.countP_cons]
      simp [heq, hzero]
    · rw [List.countP_cons]
      have hd0 : (decide (e.1 = q)) = false := by simp [heq]
      simp only [hd0]
      rw [lookupN] at hl
      rw [if_neg heq] at hl
      simpa using ih hn2.2 hl

/- ### The operation alphabet and the step function -/

/-- One engine invocation: the operation arguments together with the
environment-chosen values the call consumes — the instant fuse.Now()
returns and the replies of whatever backend calls the operation makes. -/
inductive Op where
  | mkdir (p : Path) (mode now : Nat) (br : Int)
  | rmdir (p : Path) (br : Int)
  | mknod (p : Path) (mode now : Nat)
  | create (p : Path) (mode now : Nat) (br : Int)
  | unlink (p : Path) (br : Int)
  | rename (oldp newp : Path) (br : Int)
  | write (p : Path) (buff : List Nat) (ofst now : Nat) (br : Int × Int)
  | truncate (p : Path) (size now : Nat) (br : Int)
  | chmod (p : Path) (mode now : Nat)
  | chown (p : Path) (uid gid now : Nat)
  | utimens (p : Path) (tm : Option (Nat × Nat)) (now : Nat)
  | linkLocal (p : Path) (now : Nat)

/-- The state after one engine invocation. -/
def stepOp (s : MemFS) : Op → MemFS
  | .mkdir p mode now br => (Mkdir s p mode now br).2
  | .rmdir p br => (Rmdir s p br).2
  | .mknod p mode now => (Mknod s p mode now).2
  | .create p mode now br => (Create s p mode now br).2.1
  | .unlink p br => (Unlink s p br).2
  | .rename oldp newp br => (Rename s oldp newp br).2.1
  | .write p buff ofst now br => (Write s p buff ofst now br).2
  | .truncate p size now br => (Truncate s p size now br).2
  | .chmod p mode now => (Chmod s p mode now).2
  | .chown p uid gid now => (Chown s p uid gid now).2
  | .utimens p tm now => (Utimens s p tm now).2
  | .linkLocal p now => (LinkLocal s p now).2

/- ### Claim C1: the root invariant -/

/-- The C1 operation fragment: create is never invoked on the root path and
rename is never invoked with the root (or the empty) path as source or
destination; every other invocation is unrestricted. -/
def AllowedC1 : Op → Prop
  | .create p _ _ _ => p ≠ rootP
  | .rename oldp newp _ => oldp ≠ [] ∧ oldp ≠ rootP ∧ newp ≠ [] ∧ newp ≠ rootP
  | _ => True

/-- States reachable from a fresh filesystem by C1-allowed invocations. -/
inductive Reach1 : MemFS → Prop where
  | init (now : Nat) : Reach1 (memInit now)
  | step {s : MemFS} (op : Op) : Reach1 s → AllowedC1 op → Reach1 (stepOp s op)

/-- The root invariant on a node table: duplicate-free keys and a root
entry carrying directory mode. -/
def RootInv (ns : List (Path × Node)) : Prop :=
  NodupKeys ns ∧ ∃ n, lookupN ns rootP = some n ∧ isDirB n.stat.mode = true

theorem rootInv_insert_ne (ns : List (Path × Node)) (q : Path) (n : Node)
    (hq : q ≠ rootP) (h : RootInv ns) : RootInv (insertN ns q n) := by
  obtain ⟨hn, m, hm, hd⟩ := h
  refine ⟨nodupKeys_insertN ns q n hn, m, ?_, hd⟩
  rw [lookupN_insertN, if_neg hq]
  exact hm

theorem rootInv_insert_root (ns : List (Path × Node)) (n : Node)
    (h : RootInv ns) (hd : isDirB n.stat.mode = true) : RootInv (insertN ns rootP n) :=
  ⟨nodupKeys_insertN ns rootP n h.1, n, lookupN_insert_self ns rootP n, hd⟩

theorem rootInv_erase (ns : List (Path × Node)) (q : Path)
    (hq : q ≠ rootP) (h : RootInv ns) : RootInv (eraseN ns q) := by
  obtain ⟨hn, m, hm, hd⟩ := h
  refine ⟨nodupKeys_eraseN ns q hn, m, ?_, hd⟩
  rw [lookupN_eraseN, if_neg (fun hc => hq hc.symm)]
  exact hm

theorem rootInv_fold (moved : List (Path × Node)) (newPre oldPre : Path)
    (h2 : 1 < newPre.length) :
    ∀ acc, RootInv acc →
      RootInv (moved.foldl
        (fun acc e => insertN acc (newPre ++ e.1.drop oldPre.length) e.2) acc) := by
  induction moved with
  | nil => exact fun acc h => h
  | cons e t ih =>
    intro acc h
    apply ih
    apply rootInv_insert_ne
    · intro hc
      have hlen : (newPre ++ e.1.drop oldPre.length).length = rootP.length := by rw [hc]
      rw [List.length_append] at hlen
      simp [rootP] at hlen
      omega
    · exact h

theorem rootInv_move (ns : List (Path × Node)) (oldPre newPre : Path)
    (h1 : 1 < oldPre.length) (h2 : 1 < newPre.length) (h : RootInv ns) :
    RootInv (moveSubtree ns oldPre newPre) := by
  unfold moveSubtree
  apply rootInv_fold _ _ _ h2
  obtain ⟨hn, m, hm, hd⟩ := h
  refine ⟨hn.sublist ((List.filter_sublist ns).map Prod.fst), m, ?_, hd⟩
  rw [lookupN_filter_of_keep]
  · exact hm
  · intro e he
    simp only [he, decide_eq_true_eq]
    intro hpc
    have hle := (List.isPrefixOf_iff_prefix.mp hpc).length_le
    simp [rootP] at hle
    omega

/-- Preservation of the root invariant by every C1-allowed invocation. -/
theorem rootInv_step (s : MemFS) (op : Op) (hall : AllowedC1 op)
    (h : RootInv s.nodes) : RootInv (stepOp s op).nodes := by
  have hpne : ∀ q : Path, lookupN s.nodes q = none → q ≠ rootP := by
    intro q hq hc
    obtain ⟨m, hm, _⟩ := h.2
    rw [hc, hm] at hq
    exact Option.noConfusion hq
  have hfne : ∀ (q : Path) (n : Node), lookupN s.nodes q = some n →
      ¬ isDirB n.stat.mode = true → q ≠ rootP := by
    intro q n hq hnd hc
    obtain ⟨m, hm, hd⟩ := h.2
    rw [hc, hm] at hq
    injection hq with he
    exact hnd (he ▸ hd)
  have hparent : ∀ (q : Path) (pn : Node) (k : Nat),
      lookupN s.nodes q = some pn →
      RootInv (insertN s.nodes q { pn with stat := { pn.stat with nlink := k } }) := by
    intro q pn k hq
    by_cases hqr : q = rootP
    · subst hqr
      obtain ⟨m, hm, hd⟩ := h.2
      rw [hm] at hq
      injection hq with he
      exact rootInv_insert_root _ _ h (by subst he; exact hd)
    · exact rootInv_insert_ne _ _ _ hqr h
  cases op with
  | mkdir p mode now br =>
    simp only [stepOp, Mkdir]
    cases hq : lookupN s.nodes p with
    | some _ => exact h
    | none =>
      cases hp : lookupN s.nodes (parentFix p) with
      | none => cases resolveBackend s (parentFix p) <;> exact h
      | some pn =>
        dsimp only
        by_cases hdir : isDirB pn.stat.mode = false
        · rw [if_pos hdir]
          exact h
        · rw [if_neg hdir]
          cases pn.backend with
          | some _ => exact h
          | none =>
            dsimp only
            show RootInv (insertN (insertN s.nodes p _) (parentFix p) _)
            by_cases hpr : parentFix p = rootP
            · rw [hpr]
              refine rootInv_insert_root _ _
                (rootInv_insert_ne _ _ _ (hpne p hq) h) ?_
              revert hdir
              cases isDirB pn.stat.mode <;> simp
            · exact rootInv_insert_ne _ _ _ hpr
                (rootInv_insert_ne _ _ _ (hpne p hq) h)
  | rmdir p br =>
    simp only [stepOp, Rmdir]
    by_cases hr : p = rootP
    · rw [if_pos hr]
      exact h
    · rw [if_neg hr]
      cases hq : lookupN s.nodes p with
      | none => cases resolveBackend s p <;> exact h
      | some n =>
        dsimp only
        by_cases hdir : isDirB n.stat.mode = false
        · rw [if_pos hdir]
          exact h
        · rw [if_neg hdir]
          have herase : RootInv (eraseN (decNlink s.nodes (parentFix p)) p) := by
            apply rootInv_erase _ _ hr
            unfold decNlink
            cases hp : lookupN s.nodes (parentFix p) with
            | none => exact h
            | some pn => exact hparent _ _ _ hp
          cases hb : n.backend with
          | some _ =>
            simp only [hb]
            try dsimp only
            by_cases hbr : br ≠ 0
            · rw [if_pos hbr]
              exact h
            · rw [if_neg hbr]
              exact herase
          | none =>
            simp only [hb]
            try dsimp only
            by_cases hany : (s.nodes.any
                (fun e => (p ++ ['/']).isPrefixOf e.1 && e.1 ≠ p)) = true
            · rw [if_pos hany]
              exact h
            · rw [if_neg hany]
              exact herase
  | mknod p mode now =>
    simp only [stepOp, Mknod]
    cases hq : lookupN s.nodes p with
    | some _ => exact h
    | none =>
      cases hp : lookupN s.nodes (splitGo p).1 with
      | none => exact h
      | some _ => exact rootInv_insert_ne _ _ _ (hpne p hq) h
  | create p mode now br =>
    simp only [stepOp, Create]
    cases hp : lookupN s.nodes (parentFix p) with
    | none =>
      cases hb : resolveBackend s p with
      | none => exact h
      | some pr =>
        obtain ⟨b, rel⟩ := pr
        dsimp only
        by_cases hbr : br ≠ 0
        · rw [if_pos hbr]
          exact h
        · rw [if_neg hbr]
          exact h
    | some pn =>
      cases hb : pn.backend with
      | some b =>
        simp only [hb]
        try dsimp only
        by_cases hbr : br ≠ 0
        · rw [if_pos hbr]
          exact h
        · rw [if_neg hbr]
          exact h
      | none =>
        simp only [hb]
        try dsimp only
        exact rootInv_insert_ne _ _ _ hall h
  | unlink p br =>
    simp only [stepOp, Unlink]
    cases hq : lookupN s.nodes p with
    | none => cases resolveBackend s p <;> exact h
    | some n =>
      dsimp only
      by_cases hdir : isDirB n.stat.mode = true
      · rw [if_pos hdir]
        exact h
      · rw [if_neg hdir]
        cases hb : n.backend with
        | some _ =>
          simp only [hb]
          try dsimp only
          by_cases hbr : br ≠ 0
          · rw [if_pos hbr]
            exact h
          · rw [if_neg hbr]
            exact rootInv_erase _ _ (hfne p n hq hdir) h
        | none =>
          simp only [hb]
          try dsimp only
          exact rootInv_erase _ _ (hfne p n hq hdir) h
  | rename oldp newp br =>
    obtain ⟨ho1, ho2, hn1, hn2⟩ := hall
    simp only [stepOp, Rename]
    cases hq : lookupN s.nodes oldp with
    | none =>
      cases hro : resolveBackend s oldp with
      | none => exact h
      | some pr =>
        obtain ⟨b, rel⟩ := pr
        cases hrn : resolveBackend s newp with
        | none => exact h
        | some pr2 =>
          obtain ⟨b2, rel2⟩ := pr2
          dsimp only
          by_cases hbb : b ≠ b2
          · rw [if_pos hbb]
            exact h
          · rw [if_neg hbb]
            exact h
    | some n =>
      cases hp : lookupN s.nodes (parentFix newp) with
      | none => exact h
      | some _ =>
        cases hb : n.backend with
        | some nb =>
          simp only [hb]
          try dsimp only
          by_cases hbr : br ≠ 0
          · rw [if_pos hbr]
            exact h
          · rw [if_neg hbr]
            exact rootInv_insert_ne _ _ _ hn2 (rootInv_erase _ _ ho2 h)
        | none =>
          simp only [hb]
          try dsimp only
          have h2 : RootInv (insertN (eraseN (eraseN s.nodes newp) oldp) newp n) :=
            rootInv_insert_ne _ _ _ hn2
              (rootInv_erase _ _ ho2 (rootInv_erase _ _ hn2 h))
          by_cases hdir : isDirB n.stat.mode = true
          · rw [if_pos hdir]
            apply rootInv_move _ _ _ ?_ ?_ h2
            · have : 0 < oldp.length := List.length_pos.mpr ho1
              rw [List.length_append]
              simp
              omega
            · have : 0 < newp.length := List.length_pos.mpr hn1
              rw [List.length_append]
              simp
              omega
          · rw [if_neg hdir]
            exact h2
  | write p buff ofst now br =>
    simp only [stepOp, Write]
    cases hq : lookupN s.nodes p with
    | none =>
      cases resolveBackend s p with
      | none => exact h
      | some pr =>
        dsimp only
        split <;> exact h
    | some n =>
      dsimp only
      by_cases hdir : isDirB n.stat.mode = true
      · rw [if_pos hdir]
        exact h
      · rw [if_neg hdir]
        cases hb : n.backend with
        | some _ =>
          simp only [hb]
          try dsimp only
          by_cases hbr : br.2 ≠ 0
          · rw [if_pos hbr]
            exact h
          · rw [if_neg hbr]
            exact h
        | none =>
          simp only [hb]
          try dsimp only
          exact rootInv_insert_ne _ _ _ (hfne p n hq hdir) h
  | truncate p size now br =>
    simp only [stepOp, Truncate]
    cases hq : lookupN s.nodes p with
    | none =>
      cases resolveBackend s p with
      | none => exact h
      | some pr =>
        dsimp only
        split <;> exact h
    | some n =>
      dsimp only
      by_cases hdir : isDirB n.stat.mode = true
      · rw [if_pos hdir]
        exact h
      · rw [if_neg hdir]
        cases hb : n.backend with
        | some _ =>
          simp only [hb]
          try dsimp only
          by_cases hbr : br ≠ 0
          · rw [if_pos hbr]
            exact h
          · rw [if_neg hbr]
            exact h
        | none =>
          simp only [hb]
          try dsimp only
          exact rootInv_insert_ne _ _ _ (hfne p n hq hdir) h
  | chmod p mode now =>
    simp only [stepOp, Chmod]
    cases hq : lookupN s.nodes p with
    | none => exact h
    | some n =>
      by_cases hqr : p = rootP
      · subst hqr
        obtain ⟨m, hm, hd⟩ := h.2
        rw [hm] at hq
        injection hq with he
        apply rootInv_insert_root _ _ h
        show isDirB ((n.stat.mode &&& S_IFMT) ||| mode) = true
        have hd2 : isDirB n.stat.mode = true := he ▸ hd
        rw [isDirB_chmod, hd2]
        simp
      · exact rootInv_insert_ne _ _ _ hqr h
  | chown p uid gid now =>
    simp only [stepOp, Chown]
    cases hq : lookupN s.nodes p with
    | none => exact h
    | some n =>
      by_cases hqr : p = rootP
      · subst hqr
        obtain ⟨m, hm, hd⟩ := h.2
        rw [hm] at hq
        injection hq with he
        exact rootInv_insert_root _ _ h (he ▸ hd)
      · exact rootInv_insert_ne _ _ _ hqr h
  | utimens p tm now =>
    simp only [stepOp, Utimens]
    cases hq : lookupN s.nodes p with
    | none => exact h
    | some n =>
      by_cases hqr : p = rootP
      · subst hqr
        obtain ⟨m, hm, hd⟩ := h.2
        rw [hm] at hq
        injection hq with he
        exact rootInv_insert_root _ _ h (he ▸ hd)
      · exact rootInv_insert_ne _ _ _ hqr h
  | linkLocal p now =>
    simp only [stepOp, LinkLocal]
    cases hq : lookupN s.nodes p with
    | some _ => exact h
    | none =>
      cases hp : lookupN s.nodes (parentFix p) with
      | none => exact h
      | some pn =>
        dsimp only
        by_cases hdir : isDirB pn.stat.mode = false
        · rw [if_pos hdir]
          exact h
        · rw [if_neg hdir]
          by_cases hpr : parentFix p = rootP
          · rw [hpr]
            refine rootInv_insert_root _ _
              (rootInv_insert_ne _ _ _ (hpne p hq) h) ?_
            revert hdir
            cases isDirB pn.stat.mode <;> simp
          · exact rootInv_insert_ne _ _ _ hpr
              (rootInv_insert_ne _ _ _ (hpne p hq) h)

/-- Claim C1, as stated, is false: a single create invocation on the root
path replaces the root entry with a zero-length regular file (create
performs no existence check), so a reachable state exists whose root entry
does not have directory mode. -/
theorem c1_counterexample :
    (Create (memInit 0) rootP 420 1 0).1 = 0 ∧
    lookupN ((Create (memInit 0) rootP 420 1 0).2.1).nodes rootP =
      some (fileNode 420 1) ∧
    isDirB (fileNode 420 1).stat.mode = false := by decide

/-- Claim C1 (amended): in every state reachable from the initial
filesystem by engine invocations in which create is never applied to the
root path and rename never has the root (or the empty) path as source or
destination, the node table has exactly one entry at the root path and that
entry carries directory mode — in particular no such operation removes
it. -/
theorem c1_root_invariant (s : MemFS) (h : Reach1 s) :
    s.nodes.countP (fun e => e.1 = rootP) = 1 ∧
    ∃ n, lookupN s.nodes rootP = some n ∧ isDirB n.stat.mode = true := by
  have hinv : RootInv s.nodes := by
    induction h with
    | init now =>
      have hn0 : NodupKeys (memInit now).nodes := by simp [memInit, NodupKeys]
      exact ⟨hn0, ⟨⟨S_IFDIR ||| 0o755, 2, 0, 0, 0, now, now, now⟩, [], none, []⟩,
        rfl, isDirB_mkdir 493⟩
    | step op hs hall ih => exact rootInv_step _ op hall ih
  obtain ⟨hn, m, hm, hd⟩ := hinv
  exact ⟨countP_eq_one_of_lookup _ _ _ hn hm, m, hm, hd⟩

/-- Witness for the amended root invariant: the state reached by one mkdir
from a fresh filesystem. -/
theorem c1_root_invariant_witness :
    (stepOp (memInit 0) (Op.mkdir ['/', 'a'] 493 1 0)).nodes.countP
      (fun e => e.1 = rootP) = 1 ∧
    ∃ n, lookupN (stepOp (memInit 0) (Op.mkdir ['/', 'a'] 493 1 0)).nodes rootP =
      some n ∧ isDirB n.stat.mode = true :=
  c1_root_invariant _ (Reach1.step _ (Reach1.init 0) trivial)

/- ### Concrete states used by witnesses and counterexamples -/

/-- A filesystem with one backend mount (identity 0) at a top-level path. -/
def oneMount : MemFS := (LinkLocal (memInit 0) ['/', 'm'] 1).2

/-- A filesystem with two distinct backend mounts (identities 0 and 1). -/
def twoMounts : MemFS := (LinkLocal oneMount ['/', 'n'] 1).2

/- ### Claim theorems: C3, C4, C7, C10 -/

/-- Claim C3, as stated, is false: chmod never consults the Backend
Resolver. With a backend mounted at a top-level path, chmod of a path under
the mount (which the resolver does resolve) returns NotFound. -/
theorem c3_counterexample :
    lookupN oneMount.nodes ['/', 'm', '/', 'x'] = none ∧
    (resolveBackend oneMount ['/', 'm', '/', 'x']).isSome = true ∧
    Chmod oneMount ['/', 'm', '/', 'x'] 420 2 = (-ENOENT, oneMount) := by decide

/-- Claim C3 (amended): getattr consults the Backend Resolver on a node
table miss (a successful backend reply is returned, not NotFound), but
chmod, chown and utimens do not: on a node-table miss they return NotFound
unconditionally, even when the resolver finds a backend binding. -/
theorem c3_metadata_skip_backend (s : MemFS) (p : Path) (b : Nat) (rel : Path)
    (m uid gid now : Nat) (tm : Option (Nat × Nat)) (st : Stat)
    (hmiss : lookupN s.nodes p = none)
    (hres : resolveBackend s p = some (b, rel)) :
    Chmod s p m now = (-ENOENT, s) ∧
    Chown s p uid gid now = (-ENOENT, s) ∧
    Utimens s p tm now = (-ENOENT, s) ∧
    Getattr s p (0, st) = (0, some st) := by
  refine ⟨?_, ?_, ?_, ?_⟩ <;> simp [Chmod, Chown, Utimens, Getattr, hmiss, hres]

/-- Witness for the amended metadata claim under the one-mount state. -/
theorem c3_metadata_skip_backend_witness :
    Chmod oneMount ['/', 'm', '/', 'x'] 420 9 = (-ENOENT, oneMount) ∧
    Utimens oneMount ['/', 'm', '/', 'x'] none 9 = (-ENOENT, oneMount) :=
  ⟨(c3_metadata_skip_backend oneMount ['/', 'm', '/', 'x'] 0 ['/', 'x'] 420 0 0 9
      none { mode := 0, nlink := 0 } (by decide) (by decide)).1,
    (c3_metadata_skip_backend oneMount ['/', 'm', '/', 'x'] 0 ['/', 'x'] 420 0 0 9
      none { mode := 0, nlink := 0 } (by decide) (by decide)).2.2.1⟩

/-- Claim C4, as stated, is false: create performs no target-existence
check. Creating the same path twice succeeds both times (the source test
suite pins this), where the claim demands AlreadyExists. -/
theorem c4_counterexample :
    (lookupN ((Create (memInit 0) ['/', 'a'] 420 1 0).2.1).nodes ['/', 'a']).isSome = true ∧
    (Create ((Create (memInit 0) ['/', 'a'] 420 1 0).2.1) ['/', 'a'] 420 2 0).1 = 0 := by
  decide

/-- Claim C4 (amended): mknod fails with AlreadyExists on an existing
target and NotFound on a missing parent, and otherwise inserts a zero-length
in-memory file node — regardless of any backend binding (mknod never
delegates). Create checks no target existence (an existing node is simply
replaced): it inserts a zero-length file when the parent is in-memory,
delegates when the parent is backend-bound or resolves through a backend,
and fails with NotFound only when the parent is absent and no backend
resolves. -/
theorem c4_create_mknod (s : MemFS) (p : Path) (mode now : Nat) (r : Int) :
    (∀ n, lookupN s.nodes p = some n → Mknod s p mode now = (-EEXIST, s)) ∧
    (lookupN s.nodes p = none → lookupN s.nodes (splitGo p).1 = none →
      Mknod s p mode now = (-ENOENT, s)) ∧
    (∀ pn, lookupN s.nodes p = none → lookupN s.nodes (splitGo p).1 = some pn →
      Mknod s p mode now = (0, { s with nodes := insertN s.nodes p (fileNode mode now) })) ∧
    (∀ pn, lookupN s.nodes (parentFix p) = some pn → pn.backend = none →
      Create s p mode now r = (0, { s with nodes := insertN s.nodes p (fileNode mode now) }, [])) ∧
    (∀ pn b, lookupN s.nodes (parentFix p) = some pn → pn.backend = some b →
      Create s p mode now r = ((if r ≠ 0 then r else 0), s, [(b, '/' :: (splitGo p).2)])) ∧
    (lookupN s.nodes (parentFix p) = none → resolveBackend s p = none →
      Create s p mode now r = (-ENOENT, s, [])) ∧
    (∀ b rel, lookupN s.nodes (parentFix p) = none → resolveBackend s p = some (b, rel) →
      Create s p mode now r = ((if r ≠ 0 then r else 0), s, [(b, rel)])) := by
  refine ⟨?_, ?_, ?_, ?_, ?_, ?_, ?_⟩
  · intro n h
    simp [Mknod, h]
  · intro h1 h2
    simp [Mknod, h1, h2]
  · intro pn h1 h2
    simp [Mknod, h1, h2]
  · intro pn h1 h2
    simp [Create, h1, h2]
  · intro pn b h1 h2
    by_cases hr : r = 0 <;> simp [Create, h1, h2, hr]
  · intro h1 h2
    simp [Create, h1, h2]
  · intro b rel h1 h2
    by_cases hr : r = 0 <;> simp [Create, h1, h2, hr]

/-- Witness for the amended create/mknod claim: a second mknod of the same
path fails with AlreadyExists, and create under the in-memory root inserts
a file node. -/
theorem c4_create_mknod_witness :
    Mknod ((Mknod (memInit 0) ['/', 'a'] 420 1).2) ['/', 'a'] 420 2 =
      (-EEXIST, (Mknod (memInit 0) ['/', 'a'] 420 1).2) ∧
    Create (memInit 0) ['/', 'a'] 420 1 0 =
      (0, { (memInit 0) with
        nodes := insertN (memInit 0).nodes ['/', 'a'] (fileNode 420 1) }, []) :=
  ⟨(c4_create_mknod ((Mknod (memInit 0) ['/', 'a'] 420 1).2) ['/', 'a'] 420 2 0).1
      (fileNode 420 1) (by decide),
    (c4_create_mknod (memInit 0) ['/', 'a'] 420 1 0).2.2.2.1
      ⟨{ mode := S_IFDIR ||| 0o755, nlink := 2, atim := 0, mtim := 0, ctim := 0 }, [], none, []⟩
      (by decide) (by decide)⟩

/-- Claim C7: when the rename source has no node-table entry but resolves
through a backend binding, a destination resolving to a different binding
(interface inequality of the two backends) makes the rename fail with
IOFailure without any backend call, while a destination resolving to the
same binding makes the rename delegate directly with the two
backend-relative paths. -/
theorem c7_backend_rename (s : MemFS) (oldp newp : Path) (b b2 : Nat)
    (rel rel2 : Path) (r : Int)
    (hmiss : lookupN s.nodes oldp = none)
    (hro : resolveBackend s oldp = some (b, rel))
    (hrn : resolveBackend s newp = some (b2, rel2)) :
    (b ≠ b2 → Rename s oldp newp r = (-EIOERR, s, [])) ∧
    (b = b2 → Rename s oldp newp r = (r, s, [⟨b, rel, rel2⟩])) := by
  constructor <;> intro h <;> simp [Rename, hmiss, hro, hrn, h]

/-- Witness for the backend rename claim under the two-mount state: a
cross-mount rename fails with IOFailure and no backend call; a same-mount
rename hands the two relative paths to backend 0 and returns its reply. -/
theorem c7_backend_rename_witness :
    Rename twoMounts ['/', 'm', '/', 'x'] ['/', 'n', '/', 'y'] 0 =
      (-EIOERR, twoMounts, []) ∧
    Rename twoMounts ['/', 'm', '/', 'x'] ['/', 'm', '/', 'y'] 7 =
      (7, twoMounts, [⟨0, ['/', 'x'], ['/', 'y']⟩]) :=
  ⟨(c7_backend_rename twoMounts ['/', 'm', '/', 'x'] ['/', 'n', '/', 'y'] 0 1
      ['/', 'x'] ['/', 'y'] 0 (by decide) (by decide) (by decide)).1 (by decide),
    (c7_backend_rename twoMounts ['/', 'm', '/', 'x'] ['/', 'm', '/', 'y'] 0 0
      ['/', 'x'] ['/', 'y'] 7 (by decide) (by decide) (by decide)).2 rfl⟩

/-- Claim C10: mknod checks only that the parent path has an entry, never
its directory mode: on a fresh path whose parent entry is a regular file,
mknod succeeds and inserts a file node; mknod can never return
NotADirectory; mkdir in the same situation returns NotADirectory. -/
theorem c10_mknod_no_dir_check (s : MemFS) (p : Path) (mode now : Nat) (pn : Node)
    (h1 : lookupN s.nodes p = none)
    (h2 : lookupN s.nodes (splitGo p).1 = some pn)
    (_h3 : isDirB pn.stat.mode = false) :
    Mknod s p mode now = (0, { s with nodes := insertN s.nodes p (fileNode mode now) }) ∧
    (∀ (s2 : MemFS) (q : Path) (m2 n2 : Nat), (Mknod s2 q m2 n2).1 ≠ -ENOTDIR) ∧
    (∀ (s2 : MemFS) (q : Path) (m2 n2 : Nat) (r : Int) (qn : Node),
      lookupN s2.nodes q = none → lookupN s2.nodes (parentFix q) = some qn →
      isDirB qn.stat.mode = false → (Mkdir s2 q m2 n2 r).1 = -ENOTDIR) := by
  refine ⟨?_, ?_, ?_⟩
  · simp [Mknod, h1, h2]
  · intro s2 q m2 n2
    unfold Mknod
    cases hq : lookupN s2.nodes q with
    | some _ => simp [EEXIST, ENOTDIR]
    | none =>
      cases hp : lookupN s2.nodes (splitGo q).1 with
      | none => simp [ENOENT, ENOTDIR]
      | some _ => simp [ENOTDIR]
  · intro s2 q m2 n2 r qn hq hp hdir
    simp [Mkdir, hq, hp, hdir]

/-- Witness for the mknod claim: a file is created at a path whose parent
entry is itself a regular file, while mkdir at the same place fails with
NotADirectory. -/
theorem c10_mknod_no_dir_check_witness :
    Mknod ((Mknod (memInit 0) ['/', 'f'] 420 1).2) ['/', 'f', '/', 'g'] 420 2 =
      (0, { ((Mknod (memInit 0) ['/', 'f'] 420 1).2) with
        nodes := insertN ((Mknod (memInit 0) ['/', 'f'] 420 1).2).nodes
          ['/', 'f', '/', 'g'] (fileNode 420 2) }) ∧
    (Mkdir ((Mknod (memInit 0) ['/', 'f'] 420 1).2) ['/', 'f', '/', 'g'] 493 2 0).1 =
      -ENOTDIR :=
  ⟨(c10_mknod_no_dir_check ((Mknod (memInit 0) ['/', 'f'] 420 1).2) ['/', 'f', '/', 'g']
      420 2 (fileNode 420 1) (by decide) (by decide) (by decide)).1,
    (c10_mknod_no_dir_check ((Mknod (memInit 0) ['/', 'f'] 420 1).2) ['/', 'f', '/', 'g']
      420 2 (fileNode 420 1) (by decide) (by decide) (by decide)).2.2
      ((Mknod (memInit 0) ['/', 'f'] 420 1).2) ['/', 'f', '/', 'g'] 493 2 0
      (fileNode 420 1) (by decide) (by decide) (by decide)⟩

/- ### Claim theorems: C5 and C6 (in-memory read/write contracts) -/

/-- Claim C5: for every in-memory regular-file node, writing any byte
sequence (empty or not, arbitrary byte values) at offset 0 and then reading
that many bytes at offset 0 returns exactly the written bytes. -/
theorem c5_write_read_roundtrip (s : MemFS) (p : Path) (n : Node) (data : List Nat)
    (now : Nat) (r1 r2 : Int × Int)
    (hl : lookupN s.nodes p = some n) (hb : n.backend = none)
    (hd : isDirB n.stat.mode = false) :
    Read (Write s p data 0 now r1).2 p data.length 0 r2 = ((data.length : Int), data) := by
  simp only [Write, hl, hd, hb, Bool.false_eq_true, if_false]
  simp only [Nat.zero_add, List.take_zero, List.nil_append, List.drop_zero, Nat.sub_zero]
  generalize List.drop data.length (if n.data.length < data.length then
    n.data ++ List.replicate (data.length - n.data.length) 0 else n.data) = rest
  simp only [Read, lookupN_insert_self]
  simp only [hd, Bool.false_eq_true, if_false]
  simp only [Nat.zero_add, Nat.sub_zero, List.drop_zero]
  have hmin : data.length ⊓ (data ++ rest).length = data.length :=
    Nat.min_eq_left (by simp)
  rw [hmin, List.take_left]
  by_cases hc : (data ++ rest).length ≤ 0
  · have hnil : data ++ rest = [] := List.eq_nil_of_length_eq_zero (Nat.le_zero.mp hc)
    have hd0 : data = [] := (List.append_eq_nil.mp hnil).1
    simp [hc, hd0]
  · rw [if_neg hc]

/-- Witness for the write/read round trip: a three-byte sequence holding a
zero and a non-UTF8 byte value, written to a fresh file. -/
theorem c5_write_read_roundtrip_witness :
    Read (Write ((Mknod (memInit 0) ['/', 'a'] 420 1).2) ['/', 'a'] [7, 255, 0] 0 2 (0, 0)).2
      ['/', 'a'] 3 0 (0, 0) = (3, [7, 255, 0]) :=
  c5_write_read_roundtrip ((Mknod (memInit 0) ['/', 'a'] 420 1).2) ['/', 'a']
    (fileNode 420 1) [7, 255, 0] 2 (0, 0) (0, 0) (by decide) (by decide) (by decide)

/-- Claim C6: read on a directory fails with IsADirectory; for an in-memory
file a read at or beyond the current size returns zero bytes with result 0
(not an error); a read below the current size copies exactly
min(requested, size - offset) bytes, namely that slice of the content. -/
theorem c6_read_contract (s : MemFS) (p : Path) (n : Node) (bufLen ofst : Nat)
    (r : Int × Int) (hl : lookupN s.nodes p = some n) :
    (isDirB n.stat.mode = true → Read s p bufLen ofst r = (-EISDIR, [])) ∧
    (isDirB n.stat.mode = false → n.backend = none → n.data.length ≤ ofst →
      Read s p bufLen ofst r = (0, [])) ∧
    (isDirB n.stat.mode = false → n.backend = none → ofst < n.data.length →
      Read s p bufLen ofst r =
        (((min bufLen (n.data.length - ofst) : Nat) : Int),
          (n.data.drop ofst).take (min bufLen (n.data.length - ofst)))) := by
  refine ⟨?_, ?_, ?_⟩
  · intro hdir
    simp [Read, hl, hdir]
  · intro hdir hb hoff
    simp [Read, hl, hdir, hb, hoff]
  · intro hdir hb hoff
    simp only [Read, hl, hdir, hb, Bool.false_eq_true, if_false,
      if_neg (by omega : ¬ n.data.length ≤ ofst)]
    have hk : min (ofst + bufLen) n.data.length - ofst = min bufLen (n.data.length - ofst) := by
      omega
    have hlen : ((n.data.drop ofst).take (min bufLen (n.data.length - ofst))).length =
        min bufLen (n.data.length - ofst) := by
      rw [List.length_take, List.length_drop]
      omega
    rw [hk, hlen]

/-- Witness for the read contract: a directory read, a read past the end of
a three-byte file, and a two-byte read at offset 1 of it. -/
theorem c6_read_contract_witness :
    Read ((Mkdir (memInit 0) ['/', 'd'] 493 1 0).2) ['/', 'd'] 4 0 (0, 0) = (-EISDIR, []) ∧
    Read (Write ((Mknod (memInit 0) ['/', 'a'] 420 1).2) ['/', 'a'] [7, 255, 9] 0 2 (0, 0)).2
      ['/', 'a'] 4 5 (0, 0) = (0, []) ∧
    Read (Write ((Mknod (memInit 0) ['/', 'a'] 420 1).2) ['/', 'a'] [7, 255, 9] 0 2 (0, 0)).2
      ['/', 'a'] 9 1 (0, 0) = (2, [255, 9]) := by
  refine ⟨?_, ?_, ?_⟩
  · exact (c6_read_contract ((Mkdir (memInit 0) ['/', 'd'] 493 1 0).2) ['/', 'd']
      (⟨{ mode := S_IFDIR ||| 493, nlink := 2, atim := 1, mtim := 1, ctim := 1 }, [], none, []⟩)
      4 0 (0, 0) (by decide)).1 (by decide)
  · exact (c6_read_contract _ ['/', 'a']
      (⟨{ (fileNode 420 1).stat with size := 3, mtim := 2 }, [7, 255, 9], none, []⟩)
      4 5 (0, 0) (by decide)).2.1 (by decide) (by decide) (by decide)
  · exact (c6_read_contract _ ['/', 'a']
      (⟨{ (fileNode 420 1).stat with size := 3, mtim := 2 }, [7, 255, 9], none, []⟩)
      9 1 (0, 0) (by decide)).2.2 (by decide) (by decide) (by decide)


theorem lookupN_none_not_mem_keys (ns : List (Path × Node)) (p : Path)
    (h : lookupN ns p = none) : p ∉ ns.map Prod.fst := by
  induction ns with
  | nil => simp
  | cons e t ih =>
    rw [lookupN] at h
    by_cases he : e.1 = p
    · rw [if_pos he] at h
      exact Option.noConfusion h
    · rw [if_neg he] at h
      simp only [List.map_cons, List.mem_cons]
      rintro (h1 | h1)
      · exact he h1.symm
      · exact ih h h1

end GoBox
